import Mathlib

/-!
Shallow embedding of the rtfractal prototype (src/pixel.rs and src/main.rs).

The Rust `f32` arithmetic is modelled over the reals; the truncating and
saturating numeric casts (`as u32`, `as u8`, `as i16`) are modelled with
explicit floor operations.  Byte buffers (`&mut [u8]`) are modelled as
total functions from byte index to byte value.
-/

/-- Buffer width in pixels (`const WIDTH`, src/main.rs line 15). -/
def WIDTH : ℕ := 1000

/-- Buffer height in pixels (`const HEIGHT`, src/main.rs line 16). -/
def HEIGHT : ℕ := 1000

/-- 2D vector over ℝ, modelling `Vec2` of src/pixel.rs (lines 51-55). -/
@[ext]
structure Vec2 where
  x : ℝ
  y : ℝ

/-- `Vec2::new` (src/pixel.rs lines 58-60). -/
def Vec2.new (x y : ℝ) : Vec2 := ⟨x, y⟩

/-- Componentwise addition, `impl Add for Vec2` (src/pixel.rs lines 134-142). -/
noncomputable instance : Add Vec2 := ⟨fun a b => ⟨a.x + b.x, a.y + b.y⟩⟩

/-- Componentwise subtraction, `impl Sub for Vec2` (src/pixel.rs lines 124-132). -/
noncomputable instance : Sub Vec2 := ⟨fun a b => ⟨a.x - b.x, a.y - b.y⟩⟩

/-- Componentwise multiplication, `impl Mul<Self> for Vec2` (src/pixel.rs lines 84-92). -/
noncomputable instance : Mul Vec2 := ⟨fun a b => ⟨a.x * b.x, a.y * b.y⟩⟩

/-- Scalar multiplication, `impl Mul<f32> for Vec2` (src/pixel.rs lines 94-102). -/
noncomputable instance : HMul Vec2 ℝ Vec2 := ⟨fun a r => ⟨a.x * r, a.y * r⟩⟩

/-- Componentwise division, `impl Div<Self> for Vec2` (src/pixel.rs lines 104-112). -/
noncomputable instance : Div Vec2 := ⟨fun a b => ⟨a.x / b.x, a.y / b.y⟩⟩

/-- Scalar division, `impl Div<f32> for Vec2` (src/pixel.rs lines 114-122). -/
noncomputable instance : HDiv Vec2 ℝ Vec2 := ⟨fun a r => ⟨a.x / r, a.y / r⟩⟩

/-- `Vec2::rotate` (src/pixel.rs lines 62-69): standard 2D rotation by `angle`. -/
noncomputable def Vec2.rotate (v : Vec2) (angle : ℝ) : Vec2 :=
  let sin := Real.sin angle
  let cos := Real.cos angle
  ⟨v.x * cos - v.y * sin, v.y * cos + v.x * sin⟩

/-- `Vec2::magnitude` (src/pixel.rs lines 79-81). -/
noncomputable def Vec2.magnitude (v : Vec2) : ℝ :=
  Real.sqrt (v.x * v.x + v.y * v.y)

/-- `Vec2::normalized` (src/pixel.rs lines 71-77). -/
noncomputable def Vec2.normalized (v : Vec2) : Vec2 :=
  let magnitude := v.magnitude
  ⟨v.x / magnitude, v.y / magnitude⟩

/-- `Transform` (src/pixel.rs lines 27-32): position, rotation (radians),
uniform scale and opacity byte (`alpha : u8`, modelled as ℕ). -/
structure Transform where
  position : Vec2
  rotation : ℝ
  scale : ℝ
  alpha : ℕ

/-- `Transform::apply` (src/pixel.rs lines 35-40): scale, then rotate, then
translate. -/
noncomputable def Transform.apply (t : Transform) (point : Vec2) : Vec2 :=
  let point := point * t.scale
  let point := point.rotate t.rotation
  let point := point + t.position
  point

/-- `Transform::apply_inverse` (src/pixel.rs lines 42-47): untranslate, then
rotate backwards, then unscale. -/
noncomputable def Transform.apply_inverse (t : Transform) (point : Vec2) : Vec2 :=
  let point := point - t.position
  let point := point.rotate (-t.rotation)
  let point := point / t.scale
  point

/-- A borrowed RGBA byte buffer (`&mut [u8]` wrapped by `PixelGrid`,
src/pixel.rs line 5), modelled as a total function from byte index to byte
value; the live bytes are the indices below `WIDTH * HEIGHT * 4`. -/
def Buf : Type := ℕ → ℕ

/-- Single byte store `buf[i] = v` into the modelled buffer. -/
def setByte (buf : Buf) (i : ℕ) (v : ℕ) : Buf :=
  fun j => if j = i then v else buf j

/-- Rust `f32::clamp(lo, hi)`: `min (max x lo) hi`. -/
noncomputable def clampf (x lo hi : ℝ) : ℝ := min (max x lo) hi

/-- Truncation toward zero of a real number, the rounding used by Rust
numeric casts from `f32` to integer types. -/
noncomputable def truncToInt (x : ℝ) : ℤ :=
  if 0 ≤ x then ⌊x⌋ else -⌊-x⌋

/-- Rust `as u32` on an f32 value: truncate toward zero and saturate into
`[0, 2^32 - 1]`. -/
noncomputable def asU32 (x : ℝ) : ℕ :=
  min (truncToInt x).toNat (2 ^ 32 - 1)

/-- Rust `as u8` on an f32 value: truncate toward zero and saturate into
`[0, 255]`. -/
noncomputable def asU8 (x : ℝ) : ℕ :=
  min (truncToInt x).toNat 255

/-- An `[u8; 3]` RGB color triple (modelled with ℕ components). -/
structure Rgb where
  r : ℕ
  g : ℕ
  b : ℕ

/-- The clamped row-major byte offset computed at the top of both
`PixelGrid::set_pixel` and `PixelGrid::set_pixel_transformed`
(src/pixel.rs lines 9-11 and 17-19):
`x = point.x.clamp(0, WIDTH-1) as u32`, `y = point.y.clamp(0, HEIGHT-1) as u32`,
`i = (x + y * WIDTH) * 4`. -/
noncomputable def pixelIndex (point : Vec2) : ℕ :=
  let x := asU32 (clampf point.x 0 ((WIDTH : ℝ) - 1))
  let y := asU32 (clampf point.y 0 ((HEIGHT : ℝ) - 1))
  (x + y * WIDTH) * 4

/-- One channel of the alpha blend of `PixelGrid::set_pixel_transformed`
(src/pixel.rs lines 21-23): `((dst/255) * (1 - alpha) + (src/255) * alpha) * 255`
rounded back to a byte. -/
noncomputable def blendChannel (dst src : ℕ) (alpha : ℝ) : ℕ :=
  asU8 ((((dst : ℝ) / 255) * (1 - alpha) + ((src : ℝ) / 255) * alpha) * 255)

/-- `PixelGrid::set_pixel` (src/pixel.rs lines 8-13): clamp the coordinates,
compute the row-major byte offset, and write the three color bytes directly. -/
noncomputable def set_pixel (buf : Buf) (point : Vec2) (pixel : Rgb) : Buf :=
  let i := pixelIndex point
  let buf := setByte buf i pixel.r
  let buf := setByte buf (i + 1) pixel.g
  let buf := setByte buf (i + 2) pixel.b
  buf

/-- `PixelGrid::set_pixel_transformed` (src/pixel.rs lines 15-24): apply the
transform to the point, clamp, then alpha-blend the three color bytes in
place (each destination byte is read before it is overwritten). -/
noncomputable def set_pixel_transformed (buf : Buf) (point : Vec2)
    (transform : Transform) (pixel : Rgb) : Buf :=
  let point := transform.apply point
  let i := pixelIndex point
  let alpha : ℝ := (transform.alpha : ℝ) / 255
  let buf := setByte buf i (blendChannel (buf i) pixel.r alpha)
  let buf := setByte buf (i + 1) (blendChannel (buf (i + 1)) pixel.g alpha)
  let buf := setByte buf (i + 2) (blendChannel (buf (i + 2)) pixel.b alpha)
  buf

/-- `MouseClickState` (src/main.rs lines 149-155). -/
inductive MouseClickState where
  | Pressed
  | Held
  | Released
  | Idle
deriving DecidableEq

/-- `EditMode` (src/main.rs lines 32-37). -/
inductive EditMode where
  | Dual
  | Edit
  | View
deriving DecidableEq

/-- `WorldHoverMode` (src/main.rs lines 21-24). -/
inductive WorldHoverMode where
  | Add
deriving DecidableEq

/-- `Hoverables` (src/main.rs lines 250-257). -/
inductive Hoverables where
  | Rotate
  | Translate
  | Scale
  | Alpha
  | Delete
deriving DecidableEq

/-- `ScreenTransform` (src/main.rs lines 259-266): one manipulable transform
object with its interaction state. -/
structure ScreenTransform where
  transform : Transform
  controls_visible : Bool
  hovering : Option Hoverables
  grabbing : Option Hoverables
  scale_start : Option Vec2
  dead : Bool

/-- `UNHOVERABLE_COLOR` (src/main.rs line 268). -/
def UNHOVERABLE_COLOR : Rgb := ⟨0x13, 0x1B, 0x23⟩

/-- `HOVERABLE_COLOR` (src/main.rs line 269). -/
def HOVERABLE_COLOR : Rgb := ⟨0xA6, 0x26, 0x39⟩

/-- `HOVERING_COLOR` (src/main.rs line 270). -/
def HOVERING_COLOR : Rgb := ⟨0xDB, 0x32, 0x4D⟩

/-- `CLICKING_COLOR` (src/main.rs line 271). -/
def CLICKING_COLOR : Rgb := ⟨0x85, 0x1E, 0x2E⟩

/-- The hit-test chain of `ScreenTransform::mouse_input` run once the local
point is known to be inside the canvas (src/main.rs lines 443-492): test the
Rotate band, then the Translate block, then the Scale corner, then the
Delete corner, in that order; the first hit becomes the hover, a `Pressed`
click grabs it (Scale also records the press position, Delete immediately
sets the dead flag), and a miss clears the hover. -/
noncomputable def ScreenTransform.hitTest (s : ScreenTransform)
    (local_pos pos : Vec2) (ms : MouseClickState) : ScreenTransform :=
  let width : ℝ := WIDTH
  let height : ℝ := HEIGHT
  let sc := s.transform.scale
  if local_pos.x > -85 ∧ local_pos.x < 85 ∧
      local_pos.y > -height / 2 + 15 / sc ∧
      local_pos.y < -height / 2 + 70 + 15 / sc then
    let s := { s with hovering := some Hoverables.Rotate }
    match ms with
    | MouseClickState.Pressed => { s with grabbing := some Hoverables.Rotate }
    | _ => s
  else if local_pos.x > -65 ∧ local_pos.x < 65 ∧
      local_pos.y > -65 ∧ local_pos.y < 65 then
    let s := { s with hovering := some Hoverables.Translate }
    match ms with
    | MouseClickState.Pressed => { s with grabbing := some Hoverables.Translate }
    | _ => s
  else if local_pos.x > width / 2 - 85 - 15 / sc ∧
      local_pos.x < width / 2 - 0 - 15 / sc ∧
      local_pos.y > height / 2 - 85 - 15 / sc ∧
      local_pos.y < height / 2 - 0 - 15 / sc then
    let s := { s with hovering := some Hoverables.Scale }
    match ms with
    | MouseClickState.Pressed =>
        { s with grabbing := some Hoverables.Scale, scale_start := some pos }
    | _ => s
  else if local_pos.x > -width / 2 + 15 / sc ∧
      local_pos.x < -width / 2 + 50 + 15 / sc ∧
      local_pos.y > -height / 2 + 15 / sc ∧
      local_pos.y < -height / 2 + 50 + 15 / sc then
    let s := { s with hovering := some Hoverables.Delete }
    match ms with
    | MouseClickState.Pressed => { s with dead := true }
    | _ => s
  else
    { s with hovering := none }

open Classical in
/-- `ScreenTransform::mouse_input` (src/main.rs lines 399-494).  Returns the
updated object and the "input consumed" flag.  If a handle is grabbed the
grab is serviced from the raw cursor position and the call always consumes;
otherwise the cursor is inverse-transformed and tested against the canvas
bounds `±WIDTH/2 × ±HEIGHT/2`: outside clears `controls_visible` and does
not consume, inside sets `controls_visible` and consumes after running the
hit-test chain. -/
noncomputable def ScreenTransform.mouse_input (s : ScreenTransform)
    (pos : Vec2) (ms : MouseClickState) : ScreenTransform × Bool :=
  let width : ℝ := WIDTH
  let height : ℝ := HEIGHT
  let local_pos := s.transform.apply_inverse pos
  match s.grabbing with
  | some grabbing =>
    let s := { s with hovering := none }
    let s :=
      match grabbing with
      | Hoverables.Rotate =>
        let p := pos - s.transform.position
        let angle :=
          if p.y ≥ 0 then -Real.arctan (p.x / p.y) + Real.pi
          else -Real.arctan (p.x / p.y)
        { s with transform := { s.transform with rotation := angle } }
      | Hoverables.Translate =>
        { s with transform := { s.transform with position := pos } }
      | Hoverables.Scale =>
        let current_distance := pos - s.transform.position
        let sc := current_distance.magnitude * (WIDTH : ℝ) / (HEIGHT : ℝ) / 540
        { s with transform := { s.transform with scale := min (max sc 0.1) 1 } }
      | _ => s
    let s :=
      match ms with
      | MouseClickState.Released => { s with grabbing := none }
      | _ => s
    (s, true)
  | none =>
    if local_pos.x < -width / 2 ∨ local_pos.x > width / 2 ∨
        local_pos.y < -height / 2 ∨ local_pos.y > height / 2 then
      ({ s with controls_visible := false }, false)
    else
      let s := { s with controls_visible := true }
      (s.hitTest local_pos pos ms, true)

open Classical in
/-- The list of integers `a, a+1, ..., b-1`, modelling a Rust `a..b` range
over a signed integer type. -/
def intRange (a b : ℤ) : List ℤ :=
  (List.range (b - a).toNat).map (fun k => a + (k : ℤ))

/-- Rust `as i16` on an f32 value: truncate toward zero and saturate into
`[-32768, 32767]`. -/
noncomputable def asI16 (x : ℝ) : ℤ :=
  max (-32768) (min (truncToInt x) 32767)

/-- Number of iterations of the border-line `while` loops of
`ScreenTransform::draw` (src/main.rs lines 282 and 294): the coordinate
starts at `-1000/2`, advances by `scale` each round and stops once it
reaches `1000/2`, so for positive `scale` there are `⌈1000 / scale⌉`
rounds (a non-positive `scale` would loop forever in the source; it is
modelled as zero rounds and never reached by the scene layer, which keeps
`scale ≥ 0.1`). -/
noncomputable def whileSteps (scale : ℝ) : ℕ :=
  (⌈(1000 : ℝ) / scale⌉).toNat

/-- `ScreenTransform::draw` (src/main.rs lines 274-397): stamp the border
grid lines, and, when the controls are visible, the rotate, translate,
scale and delete handles, each colored by its hover/grab state. -/
noncomputable def ScreenTransform.draw (s : ScreenTransform) (grid : Buf) : Buf :=
  let width : ℝ := WIDTH
  let height : ℝ := HEIGHT
  let t := s.transform
  let sc := t.scale
  let grid := (List.range (whileSteps sc)).foldl (fun g k =>
    let x : ℝ := -width / 2 + (k : ℝ) * sc
    (List.range 10).foldl (fun g lw =>
      let g := set_pixel_transformed g ⟨x, -height / 2 + (lw : ℝ) / sc⟩ t UNHOVERABLE_COLOR
      set_pixel_transformed g ⟨x, height / 2 - (lw : ℝ) / sc⟩ t UNHOVERABLE_COLOR) g) grid
  let grid := (List.range (whileSteps sc)).foldl (fun g k =>
    let y : ℝ := -height / 2 + (k : ℝ) * sc
    (List.range 10).foldl (fun g lw =>
      let g := set_pixel_transformed g ⟨-width / 2 + (lw : ℝ) / sc, y⟩ t UNHOVERABLE_COLOR
      set_pixel_transformed g ⟨width / 2 - (lw : ℝ) / sc, y⟩ t UNHOVERABLE_COLOR) g) grid
  if s.controls_visible = false then grid else
  let rotate_color :=
    if s.grabbing = some Hoverables.Rotate then CLICKING_COLOR
    else if s.hovering = some Hoverables.Rotate then HOVERING_COLOR
    else HOVERABLE_COLOR
  let grid := (intRange (-75) 75).foldl (fun g x =>
    let outer_arc := asI16 (Real.sqrt (100 * 100 - (x : ℝ) * (x : ℝ)))
    let inner_arc := asI16 (Real.sqrt (75 * 75 - (x : ℝ) * (x : ℝ)))
    (intRange (max inner_arc 50) outer_arc).foldl (fun g y =>
      set_pixel_transformed g ⟨(x : ℝ), -(y : ℝ) - height / 2 + 100 + 15 / sc⟩
        t rotate_color) g) grid
  let grid := (intRange 40 85).foldl (fun g x =>
    (intRange 40 x).foldl (fun g y =>
      let g := set_pixel_transformed g ⟨(x : ℝ), -(y : ℝ) - height / 2 + 100 + 15 / sc⟩
        t rotate_color
      set_pixel_transformed g ⟨-(x : ℝ), -(y : ℝ) - height / 2 + 100 + 15 / sc⟩
        t rotate_color) g) grid
  let translate_color :=
    if s.grabbing = some Hoverables.Translate then CLICKING_COLOR
    else if s.hovering = some Hoverables.Translate then HOVERING_COLOR
    else HOVERABLE_COLOR
  let grid := (intRange (-10) 10).foldl (fun g x =>
    (intRange (-40) 40).foldl (fun g y =>
      let g := set_pixel_transformed g ⟨(x : ℝ), (y : ℝ)⟩ t translate_color
      set_pixel_transformed g ⟨(y : ℝ), (x : ℝ)⟩ t translate_color) g) grid
  let grid := (intRange (-25) 25).foldl (fun g x =>
    (intRange 0 (25 - |x|)).foldl (fun g y =>
      let g := set_pixel_transformed g ⟨(x : ℝ), ((y + 40 : ℤ) : ℝ)⟩ t translate_color
      let g := set_pixel_transformed g ⟨(x : ℝ), -((y + 40 : ℤ) : ℝ)⟩ t translate_color
      let g := set_pixel_transformed g ⟨((y + 40 : ℤ) : ℝ), (x : ℝ)⟩ t translate_color
      set_pixel_transformed g ⟨-((y + 40 : ℤ) : ℝ), (x : ℝ)⟩ t translate_color) g) grid
  let scale_color :=
    if s.grabbing = some Hoverables.Scale then CLICKING_COLOR
    else if s.hovering = some Hoverables.Scale then HOVERING_COLOR
    else HOVERABLE_COLOR
  let grid := (intRange 0 80).foldl (fun g x =>
    (intRange 60 80).foldl (fun g y =>
      let g := set_pixel_transformed g
        ⟨(x : ℝ) + width / 2 - 80 - 15 / sc, (y : ℝ) + height / 2 - 80 - 15 / sc⟩
        t scale_color
      set_pixel_transformed g
        ⟨(y : ℝ) + width / 2 - 80 - 15 / sc, (x : ℝ) + height / 2 - 80 - 15 / sc⟩
        t scale_color) g) grid
  let delete_color :=
    if s.grabbing = some Hoverables.Delete then CLICKING_COLOR
    else if s.hovering = some Hoverables.Delete then HOVERING_COLOR
    else HOVERABLE_COLOR
  let grid := (intRange 30 50).foldl (fun g x =>
    (intRange (-40) 40).foldl (fun g y =>
      let xr : ℝ := (x : ℝ)
      let yr : ℝ := (y : ℝ)
      let g := set_pixel_transformed g
        ⟨(xr + yr) / 2 - width / 2 + 15 / sc, (xr - yr) / 2 - height / 2 + 15 / sc⟩
        t delete_color
      set_pixel_transformed g
        ⟨(yr + xr) / 2 - width / 2 + 15 / sc, (yr - xr) / 2 + 40 - height / 2 + 15 / sc⟩
        t delete_color) g) grid
  grid

open Classical in
/-- `World` (src/main.rs lines 27-30): the ordered collection of transform
objects (front = index 0) and the spawn-zone hover flag. -/
structure World where
  transforms : List ScreenTransform
  hovering : Option WorldHoverMode

/-- `World::new` (src/main.rs lines 159-171): one seed object centered in
the buffer with rotation 0, scale 0.6 and opacity `0xf0`. -/
noncomputable def World.new : World :=
  { transforms := [{
      transform := {
        position := Vec2.new ((WIDTH : ℝ) / 2) ((HEIGHT : ℝ) / 2)
        rotation := 0
        scale := 0.6
        alpha := 0xf0 }
      hovering := none
      grabbing := none
      scale_start := none
      controls_visible := false
      dead := false }]
    hovering := none }

/-- The dispatch loop of `World::update` (src/main.rs lines 174-184):
walk the objects front-to-back carrying the running index `i`, record the
index of every object whose `dead` flag is already set, feed the cursor to
each object's `mouse_input` (when there is a cursor), and stop at the first
object that consumes the input.  Returns the updated objects, the index of
the consuming object (if any) and the recorded dead indices. -/
noncomputable def World.updateLoop (pos : Option Vec2) (ms : MouseClickState) :
    List ScreenTransform → ℕ → List ScreenTransform × Option ℕ × List ℕ
  | [], _ => ([], none, [])
  | t :: rest, i =>
    let ds : List ℕ := if t.dead then [i] else []
    match pos with
    | none =>
      let r := World.updateLoop none ms rest (i + 1)
      (t :: r.1, r.2.1, ds ++ r.2.2)
    | some p =>
      let t2 := (t.mouse_input p ms).1
      if (t.mouse_input p ms).2 then (t2 :: rest, some i, ds)
      else
        let r := World.updateLoop (some p) ms rest (i + 1)
        (t2 :: r.1, r.2.1, ds ++ r.2.2)

/-- `let top = self.transforms.remove(i); self.transforms.insert(0, top)`
(src/main.rs lines 186-187): move the element at index `i` to the front. -/
def moveToFront (l : List ScreenTransform) (i : ℕ) : List ScreenTransform :=
  match l[i]? with
  | some t => t :: l.eraseIdx i
  | none => l

/-- The input-dispatch half of `World::update` (src/main.rs lines 174-189):
run the dispatch loop, move the consuming object (if any) to the front, then
remove the recorded dead indices one by one (note the recorded indices are
NOT adjusted for the preceding front-promotion). -/
noncomputable def World.dispatchPhase (w : World) (pos : Option Vec2)
    (ms : MouseClickState) : List ScreenTransform :=
  let r := World.updateLoop pos ms w.transforms 0
  let ts :=
    match r.2.1 with
    | some i => moveToFront r.1 i
    | none => r.1
  r.2.2.foldl (fun l j => l.eraseIdx j) ts

/-- The freshly spawned object of `World::update` (src/main.rs lines
202-208), with the four `rand::random::<f32>()` draws passed in as
parameters `r1 r2 r3 r4` (each in `[0, 1)`). -/
noncomputable def spawnObject (r1 r2 r3 r4 : ℝ) : ScreenTransform :=
  { transform := {
      position := Vec2.new ((WIDTH : ℝ) / 2 - r1 * 100 + 50)
        ((HEIGHT : ℝ) / 2 - r2 * 100 + 50)
      rotation := r3 * 0.1 - 0.05
      scale := r4 * 0.1 + 0.495
      alpha := 0xf0 }
    hovering := none
    grabbing := none
    scale_start := none
    controls_visible := false
    dead := false }

/-- `World::update` (src/main.rs lines 173-210): dispatch the input, update
the spawn-zone hover flag from the cursor (`20 < x < 80 ∧ 20 < y < 80`),
and, if the zone is hovered while the click state is `Pressed`, append one
randomized object at the back. -/
noncomputable def World.update (w : World) (pos : Option Vec2)
    (ms : MouseClickState) (r1 r2 r3 r4 : ℝ) : World :=
  let ts := w.dispatchPhase pos ms
  let hovering :=
    match pos with
    | some p =>
      if p.x > 20 ∧ p.x < 80 ∧ p.y > 20 ∧ p.y < 80 then some WorldHoverMode.Add
      else none
    | none => w.hovering
  let ts :=
    if hovering.isSome ∧ ms = MouseClickState.Pressed then
      ts ++ [spawnObject r1 r2 r3 r4]
    else ts
  { transforms := ts, hovering := hovering }

/-- The `clear_buffer` background pattern built in `main` (src/main.rs lines
60-70): a green square on the sentinel `0xE3` gray, full alpha. -/
def clearBuffer : Buf := fun j =>
  let i := j / 4
  let x := i % WIDTH
  let y := i / WIDTH
  if x > WIDTH * 4 / 10 ∧ x < WIDTH * 6 / 10 ∧
      y > HEIGHT * 4 / 10 ∧ y < HEIGHT * 6 / 10 then
    match j % 4 with
    | 0 => 0x23
    | 1 => 0xA9
    | 2 => 0x50
    | _ => 0xff
  else
    match j % 4 with
    | 0 => 0xE3
    | 1 => 0xE3
    | 2 => 0xE3
    | _ => 0xff

/-- One pixel of the feedback pass of `World::draw` (src/main.rs lines
219-226): skip the pixel if its previous-frame red byte is the background
sentinel `0xE3`, otherwise composite the previous-frame color through every
live transform. -/
noncomputable def feedbackStep (transforms : List ScreenTransform)
    (last : Buf) (frame : Buf) (i : ℕ) : Buf :=
  if last (i * 4) = 0xE3 then frame
  else
    let x : ℝ := ((i % WIDTH : ℕ) : ℝ) - (WIDTH : ℝ) / 2
    let y : ℝ := ((i / WIDTH : ℕ) : ℝ) - (HEIGHT : ℝ) / 2
    transforms.foldl (fun f tr =>
      set_pixel_transformed f ⟨x, y⟩ tr.transform
        ⟨last (i * 4), last (i * 4 + 1), last (i * 4 + 2)⟩) frame

/-- The feedback pass of `World::draw`: fold `feedbackStep` over every pixel
of the previous frame in row-major order. -/
noncomputable def feedbackPass (transforms : List ScreenTransform)
    (last frame : Buf) : Buf :=
  (List.range (WIDTH * HEIGHT)).foldl (feedbackStep transforms last) frame

/-- The spawn-zone affordance of the overlay pass (src/main.rs lines
231-241): a plus-shaped stamp of the add color over `[43,57) × [20,80)`
and its transpose. -/
noncomputable def addZonePass (hovering : Option WorldHoverMode) (frame : Buf) : Buf :=
  let add_color :=
    if hovering = some WorldHoverMode.Add then HOVERING_COLOR else HOVERABLE_COLOR
  (List.range 14).foldl (fun f k =>
    let x : ℕ := 43 + k
    (List.range 60).foldl (fun f k2 =>
      let y : ℕ := 20 + k2
      let f := set_pixel f ⟨(x : ℝ), (y : ℝ)⟩ add_color
      set_pixel f ⟨(y : ℝ), (x : ℝ)⟩ add_color) f) frame

/-- `World::draw` (src/main.rs lines 215-247).  Copies the background into
the output frame; in `Dual`/`View` modes runs the feedback pass and then
snapshots the frame into the previous-frame buffer (BEFORE any overlay); in
`Dual`/`Edit` modes draws the spawn affordance and every object's overlay.
Returns `(frame, last_frame_buffer)` after the call. -/
noncomputable def World.draw (w : World) (clear : Buf) (_frame0 : Buf)
    (last : Buf) (mode : EditMode) : Buf × Buf :=
  let frame := clear
  let fl :=
    if mode = EditMode.Dual ∨ mode = EditMode.View then
      let frame := feedbackPass w.transforms last frame
      (frame, frame)
    else (frame, last)
  let frame := fl.1
  let frame :=
    if mode = EditMode.Dual ∨ mode = EditMode.Edit then
      let frame := addZonePass w.hovering frame
      w.transforms.foldl (fun f t => t.draw f) frame
    else frame
  (frame, fl.2)

/-- A transform object whose Delete handle has just been pressed: dead flag
set, promoted to the front (index 0) by the consuming tick, as
`World::update` leaves it. -/
noncomputable def deadFrontObj : ScreenTransform :=
  { transform := { position := ⟨500, 500⟩, rotation := 0, scale := 0.6, alpha := 0xf0 }
    controls_visible := true
    hovering := none
    grabbing := none
    scale_start := none
    dead := true }

/-- A second, live transform object sitting behind the dead one, small and
centered at the origin so the cursor `(10, 10)` falls inside its canvas. -/
noncomputable def aliveBackObj : ScreenTransform :=
  { transform := { position := ⟨0, 0⟩, rotation := 0, scale := 0.1, alpha := 0xf0 }
    controls_visible := false
    hovering := none
    grabbing := none
    scale_start := none
    dead := false }

/-- The scene states reachable from `World::new` through any sequence of
`World::update` ticks, with each `rand::random::<f32>()` draw in `[0, 1)`. -/
inductive Reachable : World → Prop where
  | init : Reachable World.new
  | step (w : World) (pos : Option Vec2) (ms : MouseClickState) (r1 r2 r3 r4 : ℝ)
      (hr1 : 0 ≤ r1) (hr1' : r1 < 1) (hr2 : 0 ≤ r2) (hr2' : r2 < 1)
      (hr3 : 0 ≤ r3) (hr3' : r3 < 1) (hr4 : 0 ≤ r4) (hr4' : r4 < 1)
      (hw : Reachable w) : Reachable (w.update pos ms r1 r2 r3 r4)

/-- The all-background buffer: every byte is the sentinel `0xE3`. -/
def bgBuf : Buf := fun _ => 0xE3

@[simp] theorem Vec2.add_x (a b : Vec2) : (a + b).x = a.x + b.x := rfl

@[simp] theorem Vec2.add_y (a b : Vec2) : (a + b).y = a.y + b.y := rfl

@[simp] theorem Vec2.sub_x (a b : Vec2) : (a - b).x = a.x - b.x := rfl

@[simp] theorem Vec2.sub_y (a b : Vec2) : (a - b).y = a.y - b.y := rfl

@[simp] theorem Vec2.smul_x (a : Vec2) (r : ℝ) : (a * r).x = a.x * r := rfl

@[simp] theorem Vec2.smul_y (a : Vec2) (r : ℝ) : (a * r).y = a.y * r := rfl

@[simp] theorem Vec2.sdiv_x (a : Vec2) (r : ℝ) : (a / r).x = a.x / r := rfl

@[simp] theorem Vec2.sdiv_y (a : Vec2) (r : ℝ) : (a / r).y = a.y / r := rfl

@[simp] theorem Vec2.rotate_x (v : Vec2) (a : ℝ) :
    (v.rotate a).x = v.x * Real.cos a - v.y * Real.sin a := rfl

@[simp] theorem Vec2.rotate_y (v : Vec2) (a : ℝ) :
    (v.rotate a).y = v.y * Real.cos a + v.x * Real.sin a := rfl

/-- C1: for every point `p` and every `Transform` `t` with `scale ≠ 0`,
`t.apply_inverse (t.apply p) = p`; in the real-number model of the f32
arithmetic the inverse is exact (hence within any floating-point tolerance),
with `apply` being scale-then-rotate-then-translate and `apply_inverse`
untranslate-then-unrotate-then-unscale. -/
theorem c1_apply_inverse_left_inverse (t : Transform) (p : Vec2)
    (h : t.scale ≠ 0) : t.apply_inverse (t.apply p) = p := by
  have hsc : Real.sin t.rotation ^ 2 + Real.cos t.rotation ^ 2 = 1 :=
    Real.sin_sq_add_cos_sq t.rotation
  ext
  · simp only [Transform.apply, Transform.apply_inverse,
      Vec2.rotate_x, Vec2.rotate_y, Vec2.add_x, Vec2.add_y,
      Vec2.sub_x, Vec2.sub_y, Vec2.smul_x, Vec2.smul_y, Vec2.sdiv_x,
      Real.cos_neg, Real.sin_neg]
    field_simp
    ring_nf
    linear_combination p.x * t.scale * hsc
  · simp only [Transform.apply, Transform.apply_inverse,
      Vec2.rotate_x, Vec2.rotate_y, Vec2.add_x, Vec2.add_y,
      Vec2.sub_x, Vec2.sub_y, Vec2.smul_x, Vec2.smul_y, Vec2.sdiv_y,
      Real.cos_neg, Real.sin_neg]
    field_simp
    ring_nf
    linear_combination p.y * t.scale * hsc

/-- Witness for C1 at the concrete transform with position `(3, 4)`,
rotation `0`, scale `2`, opacity `240`, applied to the point `(1, 2)`. -/
theorem c1_apply_inverse_left_inverse_witness :
    (Transform.mk ⟨3, 4⟩ 0 2 240).apply_inverse
      ((Transform.mk ⟨3, 4⟩ 0 2 240).apply ⟨1, 2⟩) = ⟨1, 2⟩ :=
  c1_apply_inverse_left_inverse (Transform.mk ⟨3, 4⟩ 0 2 240) ⟨1, 2⟩ (by norm_num)

@[simp] theorem setByte_same (buf : Buf) (i v : ℕ) : setByte buf i v i = v := by
  simp [setByte]

theorem setByte_other (buf : Buf) (i v j : ℕ) (h : j ≠ i) :
    setByte buf i v j = buf j := by
  simp [setByte, h]

theorem clampf_nonneg (x hi : ℝ) (h : 0 ≤ hi) : 0 ≤ clampf x 0 hi :=
  le_min (le_max_right x 0) h

theorem clampf_le (x lo hi : ℝ) : clampf x lo hi ≤ hi := min_le_right _ _

theorem asU32_le_of_le (x : ℝ) (n : ℕ) (hn : n ≤ 2 ^ 32 - 1) (h : x ≤ (n : ℝ)) :
    asU32 x ≤ n := by
  unfold asU32
  rcases le_or_lt 0 x with h0 | h0
  · have : truncToInt x = ⌊x⌋ := if_pos h0
    rw [this]
    have hfl : ⌊x⌋ ≤ (n : ℤ) := by
      have := Int.floor_le_floor h
      simpa using this
    have : ⌊x⌋.toNat ≤ n := by omega
    exact le_trans (min_le_left _ _) this
  · have : truncToInt x = -⌊-x⌋ := if_neg (not_le.mpr h0)
    rw [this]
    have hpos : 0 < ⌊-x⌋ + 1 := by
      have : (0 : ℝ) < -x := by linarith
      have := Int.lt_floor_add_one (-x)
      have h2 : (0 : ℤ) ≤ ⌊-x⌋ := Int.floor_nonneg.mpr (by linarith)
      omega
    have : (-⌊-x⌋).toNat = 0 := by omega
    rw [this]
    exact le_trans (min_le_left _ _) (Nat.zero_le n)

/-- The clamped x coordinate is at most `WIDTH - 1`. -/
theorem clampedX_le (p : Vec2) : asU32 (clampf p.x 0 ((WIDTH : ℝ) - 1)) ≤ WIDTH - 1 := by
  apply asU32_le_of_le
  · norm_num [WIDTH]
  · have := clampf_le p.x 0 ((WIDTH : ℝ) - 1)
    calc clampf p.x 0 ((WIDTH : ℝ) - 1) ≤ (WIDTH : ℝ) - 1 := this
    _ = ((WIDTH - 1 : ℕ) : ℝ) := by norm_num [WIDTH]

/-- The clamped y coordinate is at most `HEIGHT - 1`. -/
theorem clampedY_le (p : Vec2) : asU32 (clampf p.y 0 ((HEIGHT : ℝ) - 1)) ≤ HEIGHT - 1 := by
  apply asU32_le_of_le
  · norm_num [HEIGHT]
  · have := clampf_le p.y 0 ((HEIGHT : ℝ) - 1)
    calc clampf p.y 0 ((HEIGHT : ℝ) - 1) ≤ (HEIGHT : ℝ) - 1 := this
    _ = ((HEIGHT - 1 : ℕ) : ℝ) := by norm_num [HEIGHT]

/-- The byte offset targeted by a pixel write stays strictly inside the
`WIDTH * HEIGHT * 4`-byte buffer, with two bytes of room after it. -/
theorem pixelIndex_lt (p : Vec2) : pixelIndex p + 2 < WIDTH * HEIGHT * 4 := by
  have hx := clampedX_le p
  have hy := clampedY_le p
  unfold pixelIndex
  simp only [WIDTH, HEIGHT] at *
  omega

/-- C2: every `set_pixel` / `set_pixel_transformed` call clamps the (possibly
out-of-range) coordinates componentwise into `[0, WIDTH-1] × [0, HEIGHT-1]`,
the write lands at the row-major offset of that clamped in-bounds pixel
(for `set_pixel_transformed`, of the transformed point), and no byte at or
beyond `WIDTH * HEIGHT * 4` is ever touched. -/
theorem c2_clamped_in_bounds (buf : Buf) (p : Vec2) (t : Transform) (pix : Rgb) :
    asU32 (clampf p.x 0 ((WIDTH : ℝ) - 1)) ≤ WIDTH - 1
    ∧ asU32 (clampf p.y 0 ((HEIGHT : ℝ) - 1)) ≤ HEIGHT - 1
    ∧ pixelIndex p = (asU32 (clampf p.x 0 ((WIDTH : ℝ) - 1))
        + asU32 (clampf p.y 0 ((HEIGHT : ℝ) - 1)) * WIDTH) * 4
    ∧ pixelIndex p + 2 < WIDTH * HEIGHT * 4
    ∧ set_pixel buf p pix (pixelIndex p) = pix.r
    ∧ set_pixel buf p pix (pixelIndex p + 1) = pix.g
    ∧ set_pixel buf p pix (pixelIndex p + 2) = pix.b
    ∧ pixelIndex (t.apply p) + 2 < WIDTH * HEIGHT * 4
    ∧ set_pixel_transformed buf p t pix (pixelIndex (t.apply p))
        = blendChannel (buf (pixelIndex (t.apply p))) pix.r ((t.alpha : ℝ) / 255)
    ∧ set_pixel_transformed buf p t pix (pixelIndex (t.apply p) + 1)
        = blendChannel (buf (pixelIndex (t.apply p) + 1)) pix.g ((t.alpha : ℝ) / 255)
    ∧ set_pixel_transformed buf p t pix (pixelIndex (t.apply p) + 2)
        = blendChannel (buf (pixelIndex (t.apply p) + 2)) pix.b ((t.alpha : ℝ) / 255) := by
  refine ⟨clampedX_le p, clampedY_le p, rfl, pixelIndex_lt p, ?_, ?_, ?_,
    pixelIndex_lt (t.apply p), ?_, ?_, ?_⟩ <;>
    simp [set_pixel, set_pixel_transformed, setByte]

/-- C10: a pixel write modifies at most the three color bytes of the single
clamped target pixel: the byte offset is 4-aligned (so the three bytes are
the R, G, B of one pixel and the following alpha byte is untouched), and
every byte outside those three offsets keeps its previous value, for both
`set_pixel` and `set_pixel_transformed`. -/
theorem c10_frame_effect (buf : Buf) (p : Vec2) (t : Transform) (pix : Rgb) :
    pixelIndex p % 4 = 0
    ∧ pixelIndex (t.apply p) % 4 = 0
    ∧ set_pixel buf p pix = (fun j =>
        if j = pixelIndex p then pix.r
        else if j = pixelIndex p + 1 then pix.g
        else if j = pixelIndex p + 2 then pix.b
        else buf j)
    ∧ set_pixel_transformed buf p t pix = (fun j =>
        if j = pixelIndex (t.apply p)
          then blendChannel (buf (pixelIndex (t.apply p))) pix.r ((t.alpha : ℝ) / 255)
        else if j = pixelIndex (t.apply p) + 1
          then blendChannel (buf (pixelIndex (t.apply p) + 1)) pix.g ((t.alpha : ℝ) / 255)
        else if j = pixelIndex (t.apply p) + 2
          then blendChannel (buf (pixelIndex (t.apply p) + 2)) pix.b ((t.alpha : ℝ) / 255)
        else buf j) := by
  refine ⟨Nat.mul_mod_left _ 4, Nat.mul_mod_left _ 4, ?_, ?_⟩ <;>
  · funext j
    simp only [set_pixel, set_pixel_transformed, setByte]
    split_ifs <;> first | rfl | omega

/-- Pointwise evaluation of `set_pixel`. -/
theorem set_pixel_eval (buf : Buf) (p : Vec2) (pix : Rgb) (j : ℕ) :
    set_pixel buf p pix j =
      (if j = pixelIndex p then pix.r
        else if j = pixelIndex p + 1 then pix.g
        else if j = pixelIndex p + 2 then pix.b
        else buf j) := by
  simp only [set_pixel, setByte]
  split_ifs <;> first | rfl | omega

/-- Pointwise evaluation of `set_pixel_transformed`. -/
theorem set_pixel_transformed_eval (buf : Buf) (p : Vec2) (t : Transform)
    (pix : Rgb) (j : ℕ) :
    set_pixel_transformed buf p t pix j =
      (if j = pixelIndex (t.apply p)
        then blendChannel (buf (pixelIndex (t.apply p))) pix.r ((t.alpha : ℝ) / 255)
      else if j = pixelIndex (t.apply p) + 1
        then blendChannel (buf (pixelIndex (t.apply p) + 1)) pix.g ((t.alpha : ℝ) / 255)
      else if j = pixelIndex (t.apply p) + 2
        then blendChannel (buf (pixelIndex (t.apply p) + 2)) pix.b ((t.alpha : ℝ) / 255)
      else buf j) := by
  simp only [set_pixel_transformed, setByte]
  split_ifs <;> first | rfl | omega

theorem asU8_of_le (n : ℕ) (h : n ≤ 255) : asU8 (n : ℝ) = n := by
  unfold asU8 truncToInt
  rw [if_pos (by positivity)]
  simp [Int.floor_natCast, h]

/-- C3: `set_pixel_transformed` with full opacity (`alpha = 255`) writes each
source channel unchanged, i.e. it yields exactly the buffer a direct
`set_pixel` overwrite at the transformed point would produce; with zero
opacity (`alpha = 0`) the buffer is left entirely unchanged (real-number
model of the f32 blend arithmetic; byte values are assumed in `[0, 255]`
where the claim needs them). -/
theorem c3_blend_identity (buf : Buf) (p : Vec2) (t : Transform) (pix : Rgb) :
    (t.alpha = 255 → pix.r ≤ 255 → pix.g ≤ 255 → pix.b ≤ 255 →
      set_pixel_transformed buf p t pix = set_pixel buf (t.apply p) pix)
    ∧ (t.alpha = 0 → (∀ j, buf j ≤ 255) →
      set_pixel_transformed buf p t pix = buf) := by
  constructor
  · intro h255 hr hg hb
    have halpha : ((t.alpha : ℝ) / 255) = 1 := by rw [h255]; norm_num
    have hch : ∀ d s : ℕ, s ≤ 255 → blendChannel d s ((t.alpha : ℝ) / 255) = s := by
      intro d s hs
      unfold blendChannel
      rw [halpha]
      have : (((d : ℝ) / 255) * (1 - 1) + ((s : ℝ) / 255) * 1) * 255 = (s : ℝ) := by
        field_simp
      rw [this, asU8_of_le s hs]
    funext j
    rw [set_pixel_transformed_eval, set_pixel_eval]
    split_ifs
    · rw [hch _ _ hr]
    · rw [hch _ _ hg]
    · rw [hch _ _ hb]
    · rfl
  · intro h0 hbuf
    have halpha : ((t.alpha : ℝ) / 255) = 0 := by rw [h0]; norm_num
    have hch : ∀ d s : ℕ, d ≤ 255 → blendChannel d s ((t.alpha : ℝ) / 255) = d := by
      intro d s hd
      unfold blendChannel
      rw [halpha]
      have : (((d : ℝ) / 255) * (1 - 0) + ((s : ℝ) / 255) * 0) * 255 = (d : ℝ) := by
        field_simp
      rw [this, asU8_of_le d hd]
    funext j
    rw [set_pixel_transformed_eval]
    split_ifs with ha hb hc
    · rw [hch _ _ (hbuf _), ha]
    · rw [hch _ _ (hbuf _), hb]
    · rw [hch _ _ (hbuf _), hc]
    · rfl

/-- Witness for C3: with full opacity the transformed write at the origin
equals the direct overwrite, and with zero opacity the all-zero buffer is
unchanged, at concrete transforms and the color `(10, 20, 30)`. -/
theorem c3_blend_identity_witness :
    set_pixel_transformed (fun _ => 0) ⟨1, 2⟩ (Transform.mk ⟨3, 4⟩ 0 2 255) ⟨10, 20, 30⟩
      = set_pixel (fun _ => 0) ((Transform.mk ⟨3, 4⟩ 0 2 255).apply ⟨1, 2⟩) ⟨10, 20, 30⟩
    ∧ set_pixel_transformed (fun _ => 0) ⟨1, 2⟩ (Transform.mk ⟨3, 4⟩ 0 2 0) ⟨10, 20, 30⟩
      = (fun _ => 0) :=
  ⟨(c3_blend_identity (fun _ => 0) ⟨1, 2⟩ (Transform.mk ⟨3, 4⟩ 0 2 255) ⟨10, 20, 30⟩).1
      rfl (by norm_num) (by norm_num) (by norm_num),
   (c3_blend_identity (fun _ => 0) ⟨1, 2⟩ (Transform.mk ⟨3, 4⟩ 0 2 0) ⟨10, 20, 30⟩).2
      rfl (fun j => Nat.zero_le 255)⟩

/-- The hit-test chain never touches the `controls_visible` flag. -/
theorem hitTest_controls_visible (s : ScreenTransform) (lp pos : Vec2)
    (ms : MouseClickState) :
    (s.hitTest lp pos ms).controls_visible = s.controls_visible := by
  simp only [ScreenTransform.hitTest]
  split_ifs <;> (cases ms <;> rfl)

/-- C6: for an object that is not grabbing, `mouse_input` clears
`controls_visible` and reports "not consumed" exactly when the
inverse-transformed cursor lies outside the canvas bounds
`±WIDTH/2 × ±HEIGHT/2`; when the local point is inside the bounds it sets
`controls_visible` and reports "consumed" regardless of which (if any)
handle region is hit. -/
theorem c6_canvas_bounds_gate (s : ScreenTransform) (p : Vec2)
    (ms : MouseClickState) (hg : s.grabbing = none) :
    (((s.transform.apply_inverse p).x < -(WIDTH : ℝ) / 2 ∨
      (s.transform.apply_inverse p).x > (WIDTH : ℝ) / 2 ∨
      (s.transform.apply_inverse p).y < -(HEIGHT : ℝ) / 2 ∨
      (s.transform.apply_inverse p).y > (HEIGHT : ℝ) / 2) →
        (s.mouse_input p ms).1.controls_visible = false
        ∧ (s.mouse_input p ms).2 = false)
    ∧ (¬((s.transform.apply_inverse p).x < -(WIDTH : ℝ) / 2 ∨
      (s.transform.apply_inverse p).x > (WIDTH : ℝ) / 2 ∨
      (s.transform.apply_inverse p).y < -(HEIGHT : ℝ) / 2 ∨
      (s.transform.apply_inverse p).y > (HEIGHT : ℝ) / 2) →
        (s.mouse_input p ms).1.controls_visible = true
        ∧ (s.mouse_input p ms).2 = true) := by
  simp only [ScreenTransform.mouse_input, hg]
  constructor
  · intro h
    rw [if_pos h]
    exact ⟨rfl, rfl⟩
  · intro h
    rw [if_neg h]
    refine ⟨?_, rfl⟩
    rw [hitTest_controls_visible]

/-- Witness for C6: the seed-like object (never grabbing) at cursor `(0,0)`
has local point `(-833.3, -833.3)`, outside the canvas, so the input is not
consumed and the controls are hidden. -/
theorem c6_canvas_bounds_gate_witness :
    ((ScreenTransform.mk (Transform.mk ⟨500, 500⟩ 0 0.6 0xf0) false none none none false).mouse_input
        ⟨0, 0⟩ MouseClickState.Idle).1.controls_visible = false
    ∧ ((ScreenTransform.mk (Transform.mk ⟨500, 500⟩ 0 0.6 0xf0) false none none none false).mouse_input
        ⟨0, 0⟩ MouseClickState.Idle).2 = false :=
  (c6_canvas_bounds_gate
      (ScreenTransform.mk (Transform.mk ⟨500, 500⟩ 0 0.6 0xf0) false none none none false)
      ⟨0, 0⟩ MouseClickState.Idle rfl).1
    (by
      left
      show ((Transform.mk ⟨500, 500⟩ 0 0.6 0xf0).apply_inverse ⟨0, 0⟩).x < -(WIDTH : ℝ) / 2
      simp only [Transform.apply_inverse, Vec2.sub_x, Vec2.sub_y, Vec2.rotate_x,
        Vec2.sdiv_x, neg_zero, Real.cos_zero, Real.sin_zero]
      norm_num [WIDTH])

/-- Characterization of the dispatch loop when the objects before the first
consumer neither consume nor are dead: every earlier object is updated by
its (non-consuming) `mouse_input`, iteration stops at the consumer, the
consumer's index is reported, and no dead index is recorded. -/
theorem updateLoop_consume (p : Vec2) (ms : MouseClickState)
    (pre post : List ScreenTransform) (t : ScreenTransform)
    (hpre : ∀ u ∈ pre, (u.mouse_input p ms).2 = false)
    (hpredead : ∀ u ∈ pre, u.dead = false)
    (htdead : t.dead = false)
    (ht : (t.mouse_input p ms).2 = true) (i : ℕ) :
    World.updateLoop (some p) ms (pre ++ t :: post) i
      = (pre.map (fun u => (u.mouse_input p ms).1) ++ (t.mouse_input p ms).1 :: post,
         some (i + pre.length), []) := by
  induction pre generalizing i with
  | nil =>
    simp only [List.nil_append, List.map_nil, World.updateLoop, htdead, ht]
    simp
  | cons u pre ih =>
    have hu : (u.mouse_input p ms).2 = false := hpre u (by simp)
    have hud : u.dead = false := hpredead u (by simp)
    simp only [List.cons_append, List.map_cons, World.updateLoop, hu, hud,
      List.append_eq, Bool.false_eq_true, if_false]
    rw [ih (fun v hv => hpre v (by simp [hv])) (fun v hv => hpredead v (by simp [hv]))
      (i + 1)]
    rw [show i + 1 + pre.length = i + (pre.length + 1) from by omega]
    rfl

theorem eraseIdx_cons_succ_eq (a : ScreenTransform) (l : List ScreenTransform)
    (n : ℕ) : (a :: l).eraseIdx (n + 1) = a :: l.eraseIdx n := rfl

/-- Moving the element sitting right after a prefix of length `n` to the
front. -/
theorem getElem_append_middle (l1 l2 : List ScreenTransform)
    (x : ScreenTransform) : (l1 ++ x :: l2)[l1.length]? = some x := by
  induction l1 with
  | nil => simp
  | cons a l1 ih =>
    simp only [List.cons_append, List.length_cons, List.getElem?_cons_succ]
    exact ih

theorem eraseIdx_append_middle (l1 l2 : List ScreenTransform)
    (x : ScreenTransform) : (l1 ++ x :: l2).eraseIdx l1.length = l1 ++ l2 := by
  induction l1 with
  | nil => rfl
  | cons a l1 ih =>
    simp only [List.cons_append, List.length_cons, eraseIdx_cons_succ_eq]
    rw [ih]

theorem moveToFront_append (l1 l2 : List ScreenTransform) (x : ScreenTransform) :
    moveToFront (l1 ++ x :: l2) l1.length = x :: (l1 ++ l2) := by
  unfold moveToFront
  rw [getElem_append_middle, eraseIdx_append_middle]

/-- C4: in `World::update`, objects are dispatched front-to-back and the
first object whose `mouse_input` consumes the input halts the iteration and
is moved to index 0; the objects behind it never see the input and are left
unchanged.  (Stated for a tick in which no already-dead object precedes the
consumer and the cursor is outside the spawn zone, so that deletion and
spawning do not interfere.) -/
theorem c4_front_promotion (pre post : List ScreenTransform)
    (t : ScreenTransform) (hov : Option WorldHoverMode) (p : Vec2)
    (ms : MouseClickState) (r1 r2 r3 r4 : ℝ)
    (hpre : ∀ u ∈ pre, (u.mouse_input p ms).2 = false)
    (hpredead : ∀ u ∈ pre, u.dead = false)
    (htdead : t.dead = false)
    (ht : (t.mouse_input p ms).2 = true)
    (hzone : ¬(p.x > 20 ∧ p.x < 80 ∧ p.y > 20 ∧ p.y < 80)) :
    ((World.mk (pre ++ t :: post) hov).update (some p) ms r1 r2 r3 r4).transforms
      = (t.mouse_input p ms).1
          :: (pre.map (fun u => (u.mouse_input p ms).1) ++ post) := by
  unfold World.update World.dispatchPhase
  simp only [updateLoop_consume p ms pre post t hpre hpredead htdead ht 0,
    Nat.zero_add, List.foldl_nil]
  rw [if_neg hzone]
  have hlen : pre.length = (pre.map (fun u => (u.mouse_input p ms).1)).length := by
    simp
  rw [hlen, moveToFront_append]
  simp

/-- Witness for C4: a single object currently grabbing its Translate handle
consumes the cursor at `(0,0)` (outside the spawn zone) and stays at the
front of the collection. -/
theorem c4_front_promotion_witness :
    ((World.mk
        [ScreenTransform.mk (Transform.mk ⟨500, 500⟩ 0 0.6 0xf0) true none
          (some Hoverables.Translate) none false] none).update
      (some ⟨0, 0⟩) MouseClickState.Held 0 0 0 0).transforms
    = [((ScreenTransform.mk (Transform.mk ⟨500, 500⟩ 0 0.6 0xf0) true none
          (some Hoverables.Translate) none false).mouse_input
        ⟨0, 0⟩ MouseClickState.Held).1] := by
  have h := c4_front_promotion [] []
    (ScreenTransform.mk (Transform.mk ⟨500, 500⟩ 0 0.6 0xf0) true none
      (some Hoverables.Translate) none false)
    none ⟨0, 0⟩ MouseClickState.Held 0 0 0 0
    (by intro u hu; simp at hu)
    (by intro u hu; simp at hu)
    rfl
    rfl
    (by norm_num)
  simpa using h

/-- At cursor `(10, 10)` the dead front object's local point is
`(-816.6, -816.6)`, outside its canvas, so its `mouse_input` does not
consume. -/
theorem deadFrontObj_input :
    deadFrontObj.mouse_input ⟨10, 10⟩ MouseClickState.Idle
      = ({ deadFrontObj with controls_visible := false }, false) := by
  have hg : deadFrontObj.grabbing = none := rfl
  have hout : (deadFrontObj.transform.apply_inverse ⟨10, 10⟩).x < -(WIDTH : ℝ) / 2 := by
    simp only [deadFrontObj, Transform.apply_inverse, Vec2.sub_x, Vec2.sub_y,
      Vec2.rotate_x, Vec2.sdiv_x, neg_zero, Real.cos_zero, Real.sin_zero]
    norm_num [WIDTH]
  simp only [ScreenTransform.mouse_input, hg]
  rw [if_pos (Or.inl hout)]

/-- At cursor `(10, 10)` the live back object's local point is `(100, 100)`,
inside its canvas but on no handle, so its `mouse_input` consumes and only
turns its controls on. -/
theorem aliveBackObj_input :
    aliveBackObj.mouse_input ⟨10, 10⟩ MouseClickState.Idle
      = ({ aliveBackObj with controls_visible := true }, true) := by
  have hg : aliveBackObj.grabbing = none := rfl
  have hlocal : aliveBackObj.transform.apply_inverse ⟨10, 10⟩ = ⟨100, 100⟩ := by
    simp only [aliveBackObj, Transform.apply_inverse]
    ext
    · simp only [Vec2.sub_x, Vec2.sub_y, Vec2.rotate_x, Vec2.sdiv_x, neg_zero,
        Real.cos_zero, Real.sin_zero]
      norm_num
    · simp only [Vec2.sub_x, Vec2.sub_y, Vec2.rotate_y, Vec2.sdiv_y, neg_zero,
        Real.cos_zero, Real.sin_zero]
      norm_num
  have hin : ¬((100 : ℝ) < -(WIDTH : ℝ) / 2 ∨ (100 : ℝ) > (WIDTH : ℝ) / 2 ∨
      (100 : ℝ) < -(HEIGHT : ℝ) / 2 ∨ (100 : ℝ) > (HEIGHT : ℝ) / 2) := by
    norm_num [WIDTH, HEIGHT]
  simp only [ScreenTransform.mouse_input, hg, hlocal]
  rw [if_neg hin]
  have hsc : ({ aliveBackObj with controls_visible := true } :
      ScreenTransform).transform.scale = 0.1 := rfl
  unfold ScreenTransform.hitTest
  rw [hsc]
  rw [if_neg (by norm_num [HEIGHT]), if_neg (by norm_num),
    if_neg (by norm_num [WIDTH, HEIGHT]), if_neg (by norm_num [WIDTH, HEIGHT])]
  simp [aliveBackObj]

/-- C5 (code bug): after a Delete press leaves the dead object at the front,
the next `update` with the cursor over the object behind it removes the
WRONG object.  The dispatch loop records the dead object's index, the
consuming object is promoted to the front, and the recorded (now stale)
index deletes the freshly promoted live object while the dead one survives:
the resulting scene holds exactly one object and its dead flag is still
`true`. -/
theorem c5_dead_removal_bug :
    ((World.mk [deadFrontObj, aliveBackObj] none).update (some ⟨10, 10⟩)
        MouseClickState.Idle 0 0 0 0).transforms
      = [{ deadFrontObj with controls_visible := false }] := by
  have hdead : deadFrontObj.dead = true := rfl
  have halive : aliveBackObj.dead = false := rfl
  unfold World.update World.dispatchPhase
  simp only [World.updateLoop, hdead, halive, deadFrontObj_input, aliveBackObj_input,
    Bool.false_eq_true, if_false, if_true]
  rw [if_neg (by norm_num : ¬((10 : ℝ) > 20 ∧ (10 : ℝ) < 80 ∧ (10 : ℝ) > 20 ∧ (10 : ℝ) < 80))]
  simp [moveToFront, List.eraseIdx]

/-- The hit-test chain never touches the object's `Transform`. -/
theorem hitTest_transform (s : ScreenTransform) (lp pos : Vec2)
    (ms : MouseClickState) :
    (s.hitTest lp pos ms).transform = s.transform := by
  simp only [ScreenTransform.hitTest]
  split_ifs <;> (cases ms <;> rfl)

/-- `mouse_input` keeps the scale inside `[0.1, 1]`: the only write to the
scale is the interactive Scale grab, which clamps with
`.max(0.1).min(1.0)`. -/
theorem mouse_input_scale (s : ScreenTransform) (p : Vec2) (ms : MouseClickState)
    (h1 : 0.1 ≤ s.transform.scale) (h2 : s.transform.scale ≤ 1) :
    0.1 ≤ (s.mouse_input p ms).1.transform.scale
    ∧ (s.mouse_input p ms).1.transform.scale ≤ 1 := by
  unfold ScreenTransform.mouse_input
  cases hg : s.grabbing with
  | none =>
    simp only
    split_ifs
    · exact ⟨h1, h2⟩
    · rw [hitTest_transform]
      exact ⟨h1, h2⟩
  | some g =>
    cases g <;> cases ms <;>
      simp only <;>
      first
        | exact ⟨h1, h2⟩
        | (constructor
           · exact le_min (le_max_right _ _) (by norm_num)
           · exact min_le_right _ _)

theorem eraseIdx_cons_zero (a : ScreenTransform) (l : List ScreenTransform) :
    (a :: l).eraseIdx 0 = l := rfl

theorem mem_eraseIdx (l : List ScreenTransform) (i : ℕ) (u : ScreenTransform)
    (hu : u ∈ l.eraseIdx i) : u ∈ l := by
  induction l generalizing i with
  | nil => simp [List.eraseIdx] at hu
  | cons a l ih =>
    cases i with
    | zero =>
      rw [eraseIdx_cons_zero] at hu
      exact List.mem_cons_of_mem a hu
    | succ n =>
      rw [eraseIdx_cons_succ_eq] at hu
      rcases List.mem_cons.mp hu with rfl | h
      · exact List.mem_cons_self _ _
      · exact List.mem_cons_of_mem a (ih n h)

theorem mem_of_getElem_eq (l : List ScreenTransform) (i : ℕ) (a : ScreenTransform)
    (h : l[i]? = some a) : a ∈ l := by
  induction l generalizing i with
  | nil => simp at h
  | cons b l ih =>
    cases i with
    | zero =>
      simp only [List.getElem?_cons_zero, Option.some.injEq] at h
      simp [h]
    | succ n =>
      exact List.mem_cons_of_mem b (ih n (by simpa using h))

theorem mem_moveToFront (l : List ScreenTransform) (i : ℕ) (u : ScreenTransform)
    (hu : u ∈ moveToFront l i) : u ∈ l := by
  unfold moveToFront at hu
  cases hx : l[i]? with
  | none => rw [hx] at hu; exact hu
  | some a =>
    rw [hx] at hu
    rcases List.mem_cons.mp hu with rfl | h
    · exact mem_of_getElem_eq l i u hx
    · exact mem_eraseIdx l i u h

theorem mem_foldl_eraseIdx (ds : List ℕ) (l : List ScreenTransform)
    (u : ScreenTransform) (hu : u ∈ ds.foldl (fun l j => l.eraseIdx j) l) :
    u ∈ l := by
  induction ds generalizing l with
  | nil => exact hu
  | cons d ds ih => exact mem_eraseIdx _ _ _ (ih _ hu)

/-- Every object coming out of the dispatch loop is either an untouched or a
`mouse_input`-updated input object, so the loop keeps the scale bounds. -/
theorem updateLoop_scale (pos : Option Vec2) (ms : MouseClickState)
    (ts : List ScreenTransform) (i : ℕ)
    (h : ∀ u ∈ ts, 0.1 ≤ u.transform.scale ∧ u.transform.scale ≤ 1) :
    ∀ u ∈ (World.updateLoop pos ms ts i).1,
      0.1 ≤ u.transform.scale ∧ u.transform.scale ≤ 1 := by
  induction ts generalizing i with
  | nil => intro u hu; simp [World.updateLoop] at hu
  | cons t rest ih =>
    intro u hu
    have hh := h t (List.mem_cons_self t rest)
    have hrest : ∀ v ∈ rest, 0.1 ≤ v.transform.scale ∧ v.transform.scale ≤ 1 :=
      fun v hv => h v (List.mem_cons_of_mem t hv)
    cases pos with
    | none =>
      simp only [World.updateLoop] at hu
      rcases List.mem_cons.mp hu with rfl | h2
      · exact hh
      · exact ih (i + 1) hrest u h2
    | some p =>
      simp only [World.updateLoop] at hu
      by_cases hc : (t.mouse_input p ms).2 = true
      · rw [if_pos hc] at hu
        rcases List.mem_cons.mp hu with rfl | h2
        · exact mouse_input_scale t p ms hh.1 hh.2
        · exact hrest u h2
      · rw [if_neg hc] at hu
        rcases List.mem_cons.mp hu with rfl | h2
        · exact mouse_input_scale t p ms hh.1 hh.2
        · exact ih (i + 1) hrest u h2

/-- The scale of a freshly spawned object is `r4 * 0.1 + 0.495 ∈ [0.495, 0.595]`. -/
theorem spawnObject_scale (r1 r2 r3 r4 : ℝ) (h0 : 0 ≤ r4) (h1 : r4 < 1) :
    0.495 ≤ (spawnObject r1 r2 r3 r4).transform.scale
    ∧ (spawnObject r1 r2 r3 r4).transform.scale ≤ 0.595 := by
  simp only [spawnObject]
  constructor <;> nlinarith

/-- One `World::update` keeps every scale inside `[0.1, 1]`. -/
theorem update_scale (w : World) (pos : Option Vec2) (ms : MouseClickState)
    (r1 r2 r3 r4 : ℝ) (hr4 : 0 ≤ r4) (hr4' : r4 < 1)
    (h : ∀ u ∈ w.transforms, 0.1 ≤ u.transform.scale ∧ u.transform.scale ≤ 1) :
    ∀ u ∈ (w.update pos ms r1 r2 r3 r4).transforms,
      0.1 ≤ u.transform.scale ∧ u.transform.scale ≤ 1 := by
  have hd : ∀ v ∈ w.dispatchPhase pos ms,
      0.1 ≤ v.transform.scale ∧ v.transform.scale ≤ 1 := by
    intro v hv
    unfold World.dispatchPhase at hv
    have hv2 := mem_foldl_eraseIdx _ _ _ hv
    cases hfo : (World.updateLoop pos ms w.transforms 0).2.1 with
    | none =>
      rw [hfo] at hv2
      exact updateLoop_scale pos ms w.transforms 0 h v hv2
    | some i =>
      rw [hfo] at hv2
      exact updateLoop_scale pos ms w.transforms 0 h v (mem_moveToFront _ _ _ hv2)
  intro u hu
  unfold World.update at hu
  simp only at hu
  split at hu
  · rcases List.mem_append.mp hu with h2 | h2
    · exact hd u h2
    · have : u = spawnObject r1 r2 r3 r4 := by simpa using h2
      subst this
      have := spawnObject_scale r1 r2 r3 r4 hr4 hr4'
      constructor
      · linarith [this.1]
      · linarith [this.2]
  · exact hd u hu

/-- C7: in every scene state reachable from the seed object (scale 0.6),
every transform's scale lies in `[0.1, 1]` and in particular is never zero:
interactive scale changes are clamped to `[0.1, 1]` and spawned objects get
scale in `[0.495, 0.595] ⊆ [0.1, 1]`. -/
theorem reachable_scale (w : World) (hw : Reachable w) :
    ∀ v ∈ w.transforms, 0.1 ≤ v.transform.scale ∧ v.transform.scale ≤ 1 := by
  induction hw with
  | init =>
    intro v hv
    simp only [World.new, List.mem_singleton] at hv
    subst hv
    norm_num
  | step w pos ms r1 r2 r3 r4 hr1 hr1' hr2 hr2' hr3 hr3' hr4 hr4' hw ih =>
    exact update_scale w pos ms r1 r2 r3 r4 hr4 hr4' ih

theorem c7_scale_invariant (w : World) (hw : Reachable w) (u : ScreenTransform)
    (hu : u ∈ w.transforms) :
    0.1 ≤ u.transform.scale ∧ u.transform.scale ≤ 1 ∧ u.transform.scale ≠ 0 := by
  obtain ⟨a, b⟩ := reachable_scale w hw u hu
  refine ⟨a, b, ?_⟩
  intro h0
  rw [h0] at a
  norm_num at a

/-- Witness for C7 at the initial world: the seed object's scale 0.6 is in
`[0.1, 1]` and nonzero. -/
theorem c7_scale_invariant_witness :
    0.1 ≤ (ScreenTransform.mk
        (Transform.mk (Vec2.new ((WIDTH : ℝ) / 2) ((HEIGHT : ℝ) / 2)) 0 0.6 0xf0)
        false none none none false).transform.scale
    ∧ (ScreenTransform.mk
        (Transform.mk (Vec2.new ((WIDTH : ℝ) / 2) ((HEIGHT : ℝ) / 2)) 0 0.6 0xf0)
        false none none none false).transform.scale ≤ 1
    ∧ (ScreenTransform.mk
        (Transform.mk (Vec2.new ((WIDTH : ℝ) / 2) ((HEIGHT : ℝ) / 2)) 0 0.6 0xf0)
        false none none none false).transform.scale ≠ 0 :=
  c7_scale_invariant World.new Reachable.init _ (by simp [World.new])

/-- C8: when the cursor lies inside the spawn zone `(20,80) × (20,80)` and
the click state is `Pressed`, `World::update` appends exactly one new object
at the back of the ordered collection (after the usual dispatch phase), and
for all random draws in `[0, 1)` the new object's scale lies in
`[0.495, 0.595]` and its rotation in `[-0.05, 0.05]`. -/
theorem c8_spawn_zone (w : World) (p : Vec2) (r1 r2 r3 r4 : ℝ)
    (hx1 : p.x > 20) (hx2 : p.x < 80) (hy1 : p.y > 20) (hy2 : p.y < 80)
    (hr3 : 0 ≤ r3) (hr3' : r3 < 1) (hr4 : 0 ≤ r4) (hr4' : r4 < 1) :
    (w.update (some p) MouseClickState.Pressed r1 r2 r3 r4).transforms
      = w.dispatchPhase (some p) MouseClickState.Pressed
          ++ [spawnObject r1 r2 r3 r4]
    ∧ 0.495 ≤ (spawnObject r1 r2 r3 r4).transform.scale
    ∧ (spawnObject r1 r2 r3 r4).transform.scale ≤ 0.595
    ∧ -0.05 ≤ (spawnObject r1 r2 r3 r4).transform.rotation
    ∧ (spawnObject r1 r2 r3 r4).transform.rotation ≤ 0.05 := by
  obtain ⟨hs1, hs2⟩ := spawnObject_scale r1 r2 r3 r4 hr4 hr4'
  refine ⟨?_, hs1, hs2, ?_, ?_⟩
  · unfold World.update
    simp only
    have hzone : (if p.x > 20 ∧ p.x < 80 ∧ p.y > 20 ∧ p.y < 80 then
        some WorldHoverMode.Add else none) = some WorldHoverMode.Add :=
      if_pos ⟨hx1, hx2, hy1, hy2⟩
    rw [hzone, if_pos (by simp)]
  · simp only [spawnObject]
    nlinarith
  · simp only [spawnObject]
    nlinarith

/-- Witness for C8: clicking at `(50, 50)` on the initial world with all
four random draws equal to `0`. -/
theorem c8_spawn_zone_witness :
    (World.new.update (some ⟨50, 50⟩) MouseClickState.Pressed 0 0 0 0).transforms
      = World.new.dispatchPhase (some ⟨50, 50⟩) MouseClickState.Pressed
          ++ [spawnObject 0 0 0 0]
    ∧ 0.495 ≤ (spawnObject 0 0 0 0).transform.scale
    ∧ (spawnObject 0 0 0 0).transform.scale ≤ 0.595
    ∧ -0.05 ≤ (spawnObject 0 0 0 0).transform.rotation
    ∧ (spawnObject 0 0 0 0).transform.rotation ≤ 0.05 :=
  c8_spawn_zone World.new ⟨50, 50⟩ 0 0 0 0
    (by norm_num) (by norm_num) (by norm_num) (by norm_num)
    (by norm_num) (by norm_num) (by norm_num) (by norm_num)

theorem clampf_of_mem (x hi : ℝ) (h0 : 0 ≤ x) (h1 : x ≤ hi) :
    clampf x 0 hi = x := by
  unfold clampf
  rw [max_eq_left h0, min_eq_left h1]

theorem asU32_natCast (a : ℕ) (ha : a ≤ 999) : asU32 ((a : ℕ) : ℝ) = a := by
  unfold asU32 truncToInt
  rw [if_pos (by positivity), Int.floor_natCast]
  simp only [Int.toNat_natCast]
  omega

/-- The pixel byte offset at exact integer coordinates inside the buffer. -/
theorem pixelIndex_natCast (a b : ℕ) (ha : a ≤ 999) (hb : b ≤ 999) :
    pixelIndex ⟨((a : ℕ) : ℝ), ((b : ℕ) : ℝ)⟩ = (a + b * 1000) * 4 := by
  unfold pixelIndex
  have hw : ((WIDTH : ℕ) : ℝ) - 1 = 999 := by norm_num [WIDTH]
  have hh : ((HEIGHT : ℕ) : ℝ) - 1 = 999 := by norm_num [HEIGHT]
  rw [show ((⟨((a : ℕ) : ℝ), ((b : ℕ) : ℝ)⟩ : Vec2).x) = ((a : ℕ) : ℝ) from rfl,
    show ((⟨((a : ℕ) : ℝ), ((b : ℕ) : ℝ)⟩ : Vec2).y) = ((b : ℕ) : ℝ) from rfl,
    hw, hh,
    clampf_of_mem _ _ (by positivity) (by exact_mod_cast ha),
    clampf_of_mem _ _ (by positivity) (by exact_mod_cast hb),
    asU32_natCast a ha, asU32_natCast b hb]
  simp [WIDTH]

theorem pixelIndex_5050 : pixelIndex ⟨(50 : ℝ), (50 : ℝ)⟩ = 200200 := by
  have h := pixelIndex_natCast 50 50 (by norm_num) (by norm_num)
  norm_num at h
  exact h

/-- Any direct pixel write either stamps its red component at byte `200200`
or leaves that byte alone (the byte is 4-aligned, so it can only be hit as
a red component). -/
theorem set_pixel_byte200200 (f : Buf) (q : Vec2) (c : Rgb) :
    set_pixel f q c 200200 = c.r ∨ set_pixel f q c 200200 = f 200200 := by
  rw [set_pixel_eval]
  have h4 : pixelIndex q % 4 = 0 := Nat.mul_mod_left _ 4
  split_ifs <;> first | exact Or.inl rfl | exact Or.inr rfl | omega

theorem set_pixel_stable200200 (f : Buf) (q : Vec2) (c : Rgb)
    (h : f 200200 = c.r) : set_pixel f q c 200200 = c.r := by
  rcases set_pixel_byte200200 f q c with h2 | h2
  · exact h2
  · rw [h2, h]

theorem set_pixel_establish200200 (f : Buf) (c : Rgb) :
    set_pixel f ⟨(50 : ℝ), (50 : ℝ)⟩ c 200200 = c.r := by
  rw [set_pixel_eval, pixelIndex_5050]
  norm_num

/-- Fold invariance: a property preserved by every step of a fold holds of
the result when it holds of the start. -/
theorem foldl_preserve {α : Type} (P : Buf → Prop) (step : Buf → α → Buf)
    (l : List α) (b : Buf) (hb : P b)
    (hstep : ∀ a ∈ l, ∀ f, P f → P (step f a)) : P (l.foldl step b) := by
  induction l generalizing b with
  | nil => exact hb
  | cons a l ih =>
    rw [List.foldl_cons]
    exact ih (step b a) (hstep a (List.mem_cons_self _ _) b hb)
      (fun a2 h2 f hf => hstep a2 (List.mem_cons_of_mem _ h2) f hf)

/-- After the spawn-affordance pass (with the zone not hovered), the red
byte of pixel `(50, 50)` holds the `HOVERABLE_COLOR` red value `0xA6`. -/
theorem addZonePass_byte200200 (frame : Buf) :
    addZonePass none frame 200200 = 0xA6 := by
  unfold addZonePass
  rw [if_neg (by simp)]
  have hr : HOVERABLE_COLOR.r = 0xA6 := rfl
  have hstep : ∀ k2 : ℕ, k2 < 60 → ∀ k : ℕ, k < 14 → ∀ f : Buf,
      f 200200 = 0xA6 →
      set_pixel (set_pixel f ⟨((43 + k : ℕ) : ℝ), ((20 + k2 : ℕ) : ℝ)⟩ HOVERABLE_COLOR)
        ⟨((20 + k2 : ℕ) : ℝ), ((43 + k : ℕ) : ℝ)⟩ HOVERABLE_COLOR 200200 = 0xA6 := by
    intro k2 _ k _ f hf
    rw [← hr] at hf ⊢
    exact set_pixel_stable200200 _ _ _ (set_pixel_stable200200 _ _ _ hf)
  have hsplit : List.range 14 = List.range 7 ++ 7 :: List.range' 8 6 := by decide
  rw [hsplit, List.foldl_append, List.foldl_cons]
  apply foldl_preserve (fun f => f 200200 = 0xA6)
  · -- the outer step at k = 7 establishes the byte via the inner step k2 = 30
    have hsplit2 : List.range 60 = List.range 30 ++ 30 :: List.range' 31 29 := by
      decide
    rw [hsplit2, List.foldl_append, List.foldl_cons]
    apply foldl_preserve (fun f => f 200200 = 0xA6)
    · -- k = 7, k2 = 30: both writes hit pixel (50, 50)
      norm_num
      rw [set_pixel_establish200200]
      rfl
    · intro k2 hk2 f hf
      exact hstep k2 (by simp [List.mem_range'_1] at hk2; omega) 7 (by norm_num) f hf
  · intro k hk f hf
    apply foldl_preserve (fun f => f 200200 = 0xA6) _ _ _ hf
    intro k2 hk2 f2 hf2
    exact hstep k2 (by simp [List.mem_range] at hk2 ⊢; omega) k
      (by simp [List.mem_range'_1] at hk; omega) f2 hf2

theorem feedbackStep_nil (last f : Buf) (i : ℕ) :
    feedbackStep [] last f i = f := by
  unfold feedbackStep
  split_ifs <;> rfl

theorem feedbackPass_nil (last f : Buf) : feedbackPass [] last f = f := by
  unfold feedbackPass
  apply foldl_preserve (fun g => g = f) _ _ _ rfl
  intro a _ g hg
  rw [feedbackStep_nil, hg]

/-- In Dual mode `World::draw` evaluated on the empty scene with the
background pattern: the output frame carries the spawn affordance, while
the snapshotted previous-frame buffer is the bare background. -/
theorem draw_empty_dual :
    (World.mk [] none).draw clearBuffer bgBuf bgBuf EditMode.Dual
      = (addZonePass none clearBuffer, clearBuffer) := by
  unfold World.draw
  simp [feedbackPass_nil]

set_option maxRecDepth 4000 in
/-- C9 counterexample: the claim "after every Dual-mode draw the
previous-frame buffer holds exactly the final contents of the output
buffer" is false.  On the empty scene over the background pattern, the
output frame holds the spawn-affordance color `0xA6` at pixel `(50, 50)`
while the snapshotted previous-frame buffer still holds the background
`0xE3` there: the snapshot is taken before the overlay pass. -/
theorem c9_counterexample :
    ((World.mk [] none).draw clearBuffer bgBuf bgBuf EditMode.Dual).2
      ≠ ((World.mk [] none).draw clearBuffer bgBuf bgBuf EditMode.Dual).1 := by
  intro heq
  have h1 : ((World.mk [] none).draw clearBuffer bgBuf bgBuf EditMode.Dual).1 200200
      = 0xA6 := by
    rw [draw_empty_dual]
    exact addZonePass_byte200200 clearBuffer
  have h2 : ((World.mk [] none).draw clearBuffer bgBuf bgBuf EditMode.Dual).2 200200
      = 0xE3 := by
    rw [draw_empty_dual]
    norm_num [clearBuffer, WIDTH, HEIGHT]
  rw [heq, h1] at h2
  norm_num at h2

/-- C9 (amended): after every Dual-mode draw, the previous-frame buffer
holds the frame contents as of the end of the feedback pass — exactly what
a View-mode draw of the same inputs displays — and not the final output
buffer, because the snapshot is taken before the overlay pass. -/
theorem c9_amended_prev_is_feedback (w : World) (clear f0 last : Buf) :
    (w.draw clear f0 last EditMode.Dual).2
      = (w.draw clear f0 last EditMode.View).1 := by
  unfold World.draw
  simp

